import Mathlib

/-!
Verification of the epidemic-intervention model (`model.py`) of the covid-r
repository.  The Python code is shallowly embedded: the mutable `Infection`
object becomes an immutable record, each method becomes a function from the
record (and its arguments) to the updated record or to the computed value,
and numpy float arrays become lists of rationals, so "within floating-point
tolerance" statements become exact equalities over `ℚ`.  Division by zero,
which produces NaN in numpy without raising, is modelled by Lean's `q / 0 = 0`
junk-value convention; the relevant theorems note where this matters.
-/

namespace CovidR

/-- The `Infection` object of `model.py`.  Scalar intervention parameters are
rationals; the two day-profiles are lists of rationals; the two delays are
used by the code as array lengths, so they are embedded as naturals. -/
structure Infection where
  r0 : ℚ
  infection_rates : List ℚ
  symptoms : List ℚ
  days : ℕ
  testing_rate : ℚ
  testing_delay : ℕ
  isolation_effectivity : ℚ
  tracing_rate : ℚ
  tracing_delay : ℕ
  asymptomatic_inf : ℚ
deriving DecidableEq, Repr

/-- Embedding of `Infection.set_rates(r0, infection_rates, symptoms)`.
Python's `a or b` falls back to `b` when `a` is `None`, `0`, or an empty
list, which the `Option` matches reproduce.  The raw infection-rate vector
is scaled by `r0 / sum`; when the sum is zero numpy silently produces NaN
(no exception), which the `ℚ` embedding renders as the junk value `0`. -/
def set_rates (s : Infection) (r0 : Option ℚ) (infection_rates : Option (List ℚ))
    (symptoms : Option (List ℚ)) : Infection :=
  let r0' : ℚ := match r0 with
    | some v => if v = 0 then s.r0 else v
    | none => s.r0
  let raw : List ℚ := match infection_rates with
    | some l => if l = [] then s.infection_rates else l
    | none => s.infection_rates
  let sym : List ℚ := match symptoms with
    | some l => if l = [] then s.symptoms else l
    | none => s.symptoms
  let rates : List ℚ := raw.map (fun v => r0' * v / raw.sum)
  { s with r0 := r0', infection_rates := rates, days := rates.length, symptoms := sym }

/-- The class-level attribute values of `Infection` before `__init__` runs.
The six scalar intervention fields are `None` in Python at this point; they
are represented by the placeholder `0` (and `days` by `0`), every one of
which is overwritten by `__init__` before any use. -/
def classInfection : Infection :=
  { r0 := 3
    infection_rates := [0, 1, 3, 6, 8, 6, 3, 1]
    symptoms := [0, 0, 0, 0, 10, 20, 20, 10]
    days := 0
    testing_rate := 0
    testing_delay := 0
    isolation_effectivity := 0
    tracing_rate := 0
    tracing_delay := 0
    asymptomatic_inf := 0 }

/-- Identifiers of the `variables` registry of `model.py`. -/
inductive VarId where
  | r0
  | testing_rate
  | testing_delay
  | isolation_effectivity
  | tracing_rate
  | tracing_delay
  | asymptomatic_inf
deriving DecidableEq, Repr

/-- Registry order of the `variables` dict (insertion order in Python). -/
def registryIds : List VarId :=
  [.r0, .testing_rate, .testing_delay, .isolation_effectivity,
   .tracing_rate, .tracing_delay, .asymptomatic_inf]

/-- The `default` column of the `variables` registry. -/
def varDefault : VarId → ℚ
  | .r0 => 2
  | .testing_rate => 50
  | .testing_delay => 3
  | .isolation_effectivity => 90
  | .tracing_rate => 0
  | .tracing_delay => 1
  | .asymptomatic_inf => 20

/-- The `min` column of the `variables` registry. -/
def varMin : VarId → ℚ
  | .r0 => 1
  | .testing_rate => 0
  | .testing_delay => 0
  | .isolation_effectivity => 0
  | .tracing_rate => 0
  | .tracing_delay => 0
  | .asymptomatic_inf => 0

/-- The `max` column of the `variables` registry. -/
def varMax : VarId → ℚ
  | .r0 => 5
  | .testing_rate => 100
  | .testing_delay => 10
  | .isolation_effectivity => 100
  | .tracing_rate => 100
  | .tracing_delay => 10
  | .asymptomatic_inf => 100

/-- The `step` column of the `variables` registry. -/
def varStep : VarId → ℚ
  | .r0 => 1 / 10
  | .testing_rate => 5
  | .testing_delay => 1
  | .isolation_effectivity => 5
  | .tracing_rate => 5
  | .tracing_delay => 1
  | .asymptomatic_inf => 5

/-- Embedding of `setattr(self, id, x)` as used by `__init__` and by
`iterate` for every variable other than `r0`: a plain field assignment with
no renormalization.  The two delay fields are stored as day counts, so the
assigned rational (always integral in every sweep the code performs) is
taken to its floor. -/
def setAttr (s : Infection) (id : VarId) (x : ℚ) : Infection :=
  match id with
  | .r0 => { s with r0 := x }
  | .testing_rate => { s with testing_rate := x }
  | .testing_delay => { s with testing_delay := ⌊x⌋.toNat }
  | .isolation_effectivity => { s with isolation_effectivity := x }
  | .tracing_rate => { s with tracing_rate := x }
  | .tracing_delay => { s with tracing_delay := ⌊x⌋.toNat }
  | .asymptomatic_inf => { s with asymptomatic_inf := x }

/-- Embedding of `Infection.__init__`: assign every registry default via
`setattr` (in registry order, so the registry's `r0 = 2.0` overwrites the
class-level `r0 = 3.0`), then call `set_rates()` with no arguments. -/
def defaultInfection : Infection :=
  set_rates (registryIds.foldl (fun s id => setAttr s id (varDefault id)) classInfection)
    none none none

/-- Running cumulative sums starting from accumulator `acc`
(helper for `cumsum`). -/
def cumsumFrom (acc : ℚ) : List ℚ → List ℚ
  | [] => []
  | v :: t => (acc + v) :: cumsumFrom (acc + v) t

/-- Embedding of numpy's `cumsum` (inclusive running sums). -/
def cumsum (l : List ℚ) : List ℚ := cumsumFrom 0 l

/-- The local `effective_symptoms` array of `Infection.suppress`. -/
def effective_symptoms (s : Infection) : List ℚ :=
  s.symptoms.map
    (fun v => v / ((100 - s.symptoms.sum) * (s.asymptomatic_inf / 100) + s.symptoms.sum))

/-- The local `testing_suppression` array of `Infection.suppress`. -/
def testing_suppression (s : Infection) : List ℚ :=
  (cumsum (effective_symptoms s)).map
    (fun c => 1 - (s.testing_rate / 100) * (s.isolation_effectivity / 100) * c)

/-- The local `overall_testing_suppression` array of `Infection.suppress`:
`testing_delay` ones, then `testing_suppression`, then (when
`rest = days - len(symptoms) - testing_delay` is positive) the last entry of
`testing_suppression` repeated `rest` times, truncated to
`len(infection_rates)`.  Python raises IndexError on `[-1]` of an empty
array; the embedding returns the junk value 0 there (`getLast?.getD 0`). -/
def overall_testing_suppression (s : Infection) : List ℚ :=
  (List.replicate s.testing_delay (1 : ℚ) ++ testing_suppression s ++
    (if (s.days : ℤ) - s.symptoms.length - s.testing_delay > 0 then
      List.replicate ((s.days : ℤ) - s.symptoms.length - s.testing_delay).toNat
        ((testing_suppression s).getLast?.getD 0)
    else [])).take s.infection_rates.length

/-- The local scalar `tracing_suppression` of `Infection.suppress`. -/
def tracing_suppression (s : Infection) : ℚ :=
  1 - (effective_symptoms s).sum * (s.testing_rate / 100) * (s.tracing_rate / 100) *
    (s.isolation_effectivity / 100)

/-- The local `overall_tracing_suppression` array of `Infection.suppress`:
`testing_delay + tracing_delay` ones, then (when
`rest = days - (testing_delay + tracing_delay)` is positive) the scalar
`tracing_suppression` repeated `rest` times, truncated to
`len(infection_rates)`. -/
def overall_tracing_suppression (s : Infection) : List ℚ :=
  (List.replicate (s.testing_delay + s.tracing_delay) (1 : ℚ) ++
    (if (s.days : ℤ) - (s.testing_delay + s.tracing_delay) > 0 then
      List.replicate ((s.days : ℤ) - (s.testing_delay + s.tracing_delay)).toNat
        (tracing_suppression s)
    else [])).take s.infection_rates.length

/-- Embedding of `Infection.suppress`: the elementwise product
`infection_rates * overall_testing_suppression * overall_tracing_suppression`. -/
def suppress (s : Infection) : List ℚ :=
  List.zipWith (· * ·)
    (List.zipWith (· * ·) s.infection_rates (overall_testing_suppression s))
    (overall_tracing_suppression s)

/-- The first component of `Infection.get_r_and_growth`: the effective
reproduction number `R = sum(suppress())`.  (The second component runs a
numeric eigensolver; its mathematical content is modelled separately by
`companion` and `eigenvalueMagnitudes`.) -/
def get_r (s : Infection) : ℚ := (suppress s).sum

/-- Fuel-indexed unfolding of the `frange` generator loop
`while x <= y + 0.00001 * jump: yield x; x += jump` (helper for `frange`). -/
def frangeAux (y jump : ℚ) : ℕ → ℚ → List ℚ
  | 0, _ => []
  | n + 1, x => if x ≤ y + 1 / 100000 * jump then x :: frangeAux y jump n (x + jump) else []

/-- Embedding of the `frange(x, y, jump)` generator.  The fuel
`(⌈(y + jump/100000 - x)/jump⌉ + 1).toNat` is an upper bound on the number of
iterations whenever `jump > 0` (lemma `frange_eq_progression`), so on that
domain the embedding equals the Python loop; for `jump ≤ 0` the Python loop
either yields nothing (when `x > y + jump/100000`, as here) or never
terminates. -/
def frange (x y jump : ℚ) : List ℚ :=
  frangeAux y jump (⌈(y + 1 / 100000 * jump - x) / jump⌉ + 1).toNat x

/-- One row of the dataframe built by `Infection.iterate`: the value of every
registry variable (via its getter) plus the computed `r`.  The `perc` column,
produced by the numeric eigensolver in `get_r_and_growth`, is not modelled;
no claim concerns it. -/
structure Record where
  r0 : ℚ
  testing_rate : ℚ
  testing_delay : ℕ
  isolation_effectivity : ℚ
  tracing_rate : ℚ
  tracing_delay : ℕ
  asymptomatic_inf : ℚ
  r : ℚ
deriving DecidableEq, Repr

/-- The dict `{k: v.getter(self) for k, v in variables.items()}` together
with `d["r"]` from `get_r_and_growth`. -/
def snapshot (s : Infection) : Record :=
  { r0 := s.r0
    testing_rate := s.testing_rate
    testing_delay := s.testing_delay
    isolation_effectivity := s.isolation_effectivity
    tracing_rate := s.tracing_rate
    tracing_delay := s.tracing_delay
    asymptomatic_inf := s.asymptomatic_inf
    r := get_r s }

/-- The per-value mutation performed by `Infection.iterate`: `set_rates(x)`
when the swept variable is `r0`, plain `setattr` otherwise. -/
def iterStep (s : Infection) (id : VarId) (x : ℚ) : Infection :=
  match id with
  | .r0 => set_rates s (some x) none none
  | _ => setAttr s id x

/-- Embedding of `Infection.iterate(id)`: fold over the variable's declared
range, mutating the state and appending a record per value.  The mutated
state (the Python `self` after the loop) is returned alongside the records. -/
def iterate (s : Infection) (id : VarId) : List Record × Infection :=
  (frange (varMin id) (varMax id) (varStep id)).foldl
    (fun acc x =>
      let st := iterStep acc.2 id x
      (acc.1 ++ [snapshot st], st))
    ([], s)

/-- Embedding of `Infection._transmit(x)`: the new sliding window
`[x @ suppressed] ++ x[:-1]` and the recorded `r = sum(suppressed)`. -/
def transmit (s : Infection) (x : List ℚ) : List ℚ × ℚ :=
  let suppressed := suppress s
  let r := suppressed.sum
  let newly_infected := (List.zipWith (· * ·) x suppressed).sum
  (newly_infected :: x.dropLast, r)

/-- The `n` loop iterations of `Infection.simulate`, returning the list of
windows produced after the initial one and the list of per-step `r` values
(helper for `simulate`). -/
def simAux (s : Infection) : ℕ → List ℚ → List (List ℚ) × List ℚ
  | 0, _ => ([], [])
  | n + 1, x =>
    let p := transmit s x
    let rest := simAux s n p.1
    (p.1 :: rest.1, p.2 :: rest.2)

/-- Embedding of `Infection.simulate(initial_cases, n)`: pad the initial
cases with zeros to length `days`, then iterate `_transmit` `n` times,
collecting every window (the initial one included) and the R series
(`r0` first, then one `r` per step). -/
def simulate (s : Infection) (initial_cases : List ℚ) (n : ℕ) :
    List (List ℚ) × List ℚ :=
  let x0 := initial_cases ++ List.replicate (s.days - initial_cases.length) (0 : ℚ)
  let rest := simAux s n x0
  (x0 :: rest.1, s.r0 :: rest.2)

/-- Embedding of the matrix `A` built by `Infection.compute_growth` from the
effective daily rates `a`: first row `a`, and below it the first `n - 1` rows
of the identity (`np.diag(np.ones(days))[:-1]`). -/
def companion (n : ℕ) (a : List ℚ) : Matrix (Fin n) (Fin n) ℚ :=
  fun i j => if (i : ℕ) = 0 then a.getD j 0 else if (j : ℕ) + 1 = (i : ℕ) then 1 else 0

/-- The set of magnitudes `|λ|` of the complex eigenvalues of a rational
matrix: the mathematical content of `np.max(np.abs(np.linalg.eig(A)[0]))`
in `Infection.compute_growth` (the numeric eigensolver itself is modelled by
the spectrum of the matrix over `ℂ`). -/
def eigenvalueMagnitudes (n : ℕ) (A : Matrix (Fin n) (Fin n) ℚ) : Set ℝ :=
  {x | ∃ μ ∈ spectrum ℂ (A.map (fun q => (q : ℂ))), x = Complex.abs μ}

/-- Written from the spec, §4.2 step 1: the normalized detectability share of
day `d`, `symptomProfile[d] / ((100 - sum(symptomProfile)) * (asymptomaticInf/100)
+ sum(symptomProfile))`. -/
def effectiveSymptomShare (s : Infection) (d : ℕ) : ℚ :=
  s.symptoms.getD d 0 /
    ((100 - s.symptoms.sum) * (s.asymptomatic_inf / 100) + s.symptoms.sum)

/-- Written from the spec, §4.2 step 2: the cumulative sum of
`effectiveSymptomShare` up to and including day `d`. -/
def cumulativeShare (s : Infection) (d : ℕ) : ℚ :=
  ((List.range (d + 1)).map (effectiveSymptomShare s)).sum

/-- Written from the spec, §4.2 step 2: the per-day testing multiplier
`1 - (testingRate/100) * (isolationEffectivity/100) * cumulativeShare[d]`. -/
def testingMultiplier (s : Infection) (d : ℕ) : ℚ :=
  1 - s.testing_rate / 100 * (s.isolation_effectivity / 100) * cumulativeShare s d

/-- Written from the spec, §4.2 step 2: the testing-suppression sequence —
`1` for the first `testingDelay` days, then the computed multipliers for the
days covered by the symptom profile, then the last computed multiplier
repeated, truncated/padded to exactly `days` entries. -/
def testingSeqSpec (s : Infection) : List ℚ :=
  List.ofFn fun d : Fin s.days =>
    if (d : ℕ) < s.testing_delay then 1
    else if (d : ℕ) < s.testing_delay + s.symptoms.length then
      testingMultiplier s ((d : ℕ) - s.testing_delay)
    else testingMultiplier s (s.symptoms.length - 1)

/-- Written from the spec, §4.2 step 3: `sum(effectiveSymptomShare)`, the sum
over the days of the symptom profile. -/
def totalShare (s : Infection) : ℚ :=
  ((List.range s.symptoms.length).map (effectiveSymptomShare s)).sum

/-- Written from the spec, §4.2 step 3: the scalar
`1 - sum(effectiveSymptomShare) * (testingRate/100) * (tracingRate/100) *
(isolationEffectivity/100)`. -/
def tracingScalarSpec (s : Infection) : ℚ :=
  1 - totalShare s * (s.testing_rate / 100) * (s.tracing_rate / 100) *
    (s.isolation_effectivity / 100)

/-- Written from the spec, §4.2 step 3: the tracing-suppression sequence —
`1` for the first `testingDelay + tracingDelay` days, then the scalar
repeated, truncated/padded to `days` entries. -/
def tracingSeqSpec (s : Infection) : List ℚ :=
  List.ofFn fun d : Fin s.days =>
    if (d : ℕ) < s.testing_delay + s.tracing_delay then 1 else tracingScalarSpec s

/-- Written from the spec, §4.2 step 4: the elementwise product of the base
`infectionProfile`, the testing-suppression sequence and the
tracing-suppression sequence. -/
def suppressSpec (s : Infection) : List ℚ :=
  List.zipWith (· * ·) (List.zipWith (· * ·) s.infection_rates (testingSeqSpec s))
    (tracingSeqSpec s)

theorem cumsumFrom_length (l : List ℚ) : ∀ acc, (cumsumFrom acc l).length = l.length := by
  induction l with
  | nil => intro acc; rfl
  | cons v t ih => intro acc; simp [cumsumFrom, ih]

theorem cumsum_length (l : List ℚ) : (cumsum l).length = l.length :=
  cumsumFrom_length l 0

theorem cumsumFrom_getElem (l : List ℚ) : ∀ acc k
    (hk : k < (cumsumFrom acc l).length),
    (cumsumFrom acc l)[k] = acc + (l.take (k + 1)).sum := by
  induction l with
  | nil => intro acc k hk; simp [cumsumFrom] at hk
  | cons v t ih =>
    intro acc k hk
    cases k with
    | zero => simp [cumsumFrom]
    | succ k =>
      have hk' : k < (cumsumFrom (acc + v) t).length := by
        simpa [cumsumFrom] using hk
      have hrec := ih (acc + v) k hk'
      simp only [cumsumFrom, List.getElem_cons_succ, List.take_succ_cons, List.sum_cons]
      rw [hrec]
      ring

theorem cumsum_getElem (l : List ℚ) (k : ℕ) (hk : k < (cumsum l).length) :
    (cumsum l)[k] = (l.take (k + 1)).sum := by
  have hrec := cumsumFrom_getElem l 0 k hk
  simpa [cumsum] using hrec

theorem map_scale_sum (c S : ℚ) (l : List ℚ) :
    (l.map (fun v => c * v / S)).sum = c * l.sum / S := by
  induction l with
  | nil => simp
  | cons v t ih =>
    simp only [List.map_cons, List.sum_cons, ih]
    ring

theorem getLast_getD_eq_getElem (l : List ℚ) (h : l ≠ [])
    (hlt : l.length - 1 < l.length) :
    l.getLast?.getD 0 = l[l.length - 1] := by
  rw [List.getLast?_eq_getElem?]
  rw [List.getElem?_eq_getElem hlt]
  rfl

theorem take_eq_range_map (l : List ℚ) (m : ℕ) (hm : m ≤ l.length) :
    l.take m = (List.range m).map (fun i => l.getD i 0) := by
  apply List.ext_getElem
  · simp [hm]
  · intro i h1 h2
    have hi : i < m := by simpa using h2
    have hil : i < l.length := lt_of_lt_of_le hi hm
    simp [List.getElem_take, List.getD_eq_getElem?_getD, List.getElem?_eq_getElem hil]

theorem effective_symptoms_length (s : Infection) :
    (effective_symptoms s).length = s.symptoms.length := by
  simp [effective_symptoms]

theorem testing_suppression_length (s : Infection) :
    (testing_suppression s).length = s.symptoms.length := by
  simp [testing_suppression, cumsum_length, effective_symptoms_length]

theorem effective_symptoms_take (s : Infection) (m : ℕ) (hm : m ≤ s.symptoms.length) :
    ((effective_symptoms s).take m).sum =
      ((List.range m).map (effectiveSymptomShare s)).sum := by
  rw [effective_symptoms, ← List.map_take, take_eq_range_map s.symptoms m hm,
    List.map_map]
  rfl

theorem testing_suppression_getElem (s : Infection) (k : ℕ)
    (hk : k < (testing_suppression s).length) :
    (testing_suppression s)[k] = testingMultiplier s k := by
  have hks : k < s.symptoms.length := by
    rw [← testing_suppression_length s]
    exact hk
  have hk' : k < (cumsum (effective_symptoms s)).length := by
    rw [cumsum_length, effective_symptoms_length]
    exact hks
  simp only [testing_suppression, List.getElem_map]
  rw [cumsum_getElem _ _ hk']
  rw [testingMultiplier, cumulativeShare, effective_symptoms_take s (k + 1) (by omega)]

theorem overall_testing_eq (s : Infection) (hd : s.days = s.infection_rates.length)
    (hsym : s.symptoms ≠ []) :
    overall_testing_suppression s = testingSeqSpec s := by
  have hsl : 0 < s.symptoms.length := List.length_pos.mpr hsym
  have hts : (testing_suppression s).length = s.symptoms.length :=
    testing_suppression_length s
  apply List.ext_getElem
  · by_cases h : (s.days : ℤ) - s.symptoms.length - s.testing_delay > 0
    · simp only [overall_testing_suppression, if_pos h, testingSeqSpec, List.length_ofFn,
        List.length_take, List.length_append, List.length_replicate, hts]
      omega
    · simp only [overall_testing_suppression, if_neg h, testingSeqSpec, List.length_ofFn,
        List.length_take, List.length_append, List.length_replicate, hts,
        List.append_nil]
      omega
  · intro i h1 h2
    have hiD : i < s.days := by
      simpa [testingSeqSpec] using h2
    have hrep : (List.replicate s.testing_delay (1 : ℚ)).length = s.testing_delay := by
      simp
    simp only [testingSeqSpec, List.getElem_ofFn]
    simp only [overall_testing_suppression, List.getElem_take]
    by_cases hA : i < s.testing_delay
    · rw [List.getElem_append_left (by simp [hts]; omega),
        List.getElem_append_left (by simp; omega), List.getElem_replicate, if_pos hA]
    · by_cases hB : i < s.testing_delay + s.symptoms.length
      · rw [List.getElem_append_left (by simp [hts]; omega),
          List.getElem_append_right (by simp; omega)]
        simp only [List.length_replicate]
        rw [testing_suppression_getElem s (i - s.testing_delay) (by omega)]
        rw [if_neg hA, if_pos hB]
      · have hpos : (s.days : ℤ) - s.symptoms.length - s.testing_delay > 0 := by
          omega
        rw [List.getElem_append_right (by simp [hts]; omega)]
        simp only [if_pos hpos, List.getElem_replicate, List.length_append,
          List.length_replicate, hts]
        rw [getLast_getD_eq_getElem _ (by
          intro hnil
          rw [hnil] at hts
          simp at hts
          omega) (by omega)]
        rw [testing_suppression_getElem s ((testing_suppression s).length - 1) (by omega)]
        rw [hts]
        rw [if_neg hA, if_neg hB]

theorem overall_tracing_eq (s : Infection) (hd : s.days = s.infection_rates.length) :
    overall_tracing_suppression s = tracingSeqSpec s := by
  have htr : tracing_suppression s = tracingScalarSpec s := by
    rw [tracing_suppression, tracingScalarSpec, totalShare,
      ← effective_symptoms_take s s.symptoms.length le_rfl,
      List.take_of_length_le (le_of_eq (effective_symptoms_length s))]
  apply List.ext_getElem
  · by_cases h : (s.days : ℤ) - (s.testing_delay + s.tracing_delay) > 0
    · simp only [overall_tracing_suppression, if_pos h, tracingSeqSpec, List.length_ofFn,
        List.length_take, List.length_append, List.length_replicate]
      omega
    · simp only [overall_tracing_suppression, if_neg h, tracingSeqSpec, List.length_ofFn,
        List.length_take, List.length_append, List.length_replicate, List.append_nil]
      omega
  · intro i h1 h2
    have hiD : i < s.days := by
      simpa [tracingSeqSpec] using h2
    simp only [tracingSeqSpec, List.getElem_ofFn]
    simp only [overall_tracing_suppression, List.getElem_take]
    by_cases hA : i < s.testing_delay + s.tracing_delay
    · rw [List.getElem_append_left (by simp; omega), List.getElem_replicate, if_pos hA]
    · have hpos : (s.days : ℤ) - (s.testing_delay + s.tracing_delay) > 0 := by
        omega
      rw [List.getElem_append_right (by simp; omega)]
      simp only [if_pos hpos, List.getElem_replicate, if_neg hA, htr]

theorem suppress_eq_spec (s : Infection) (hd : s.days = s.infection_rates.length)
    (hsym : s.symptoms ≠ []) :
    suppress s = suppressSpec s := by
  rw [suppress, suppressSpec, overall_testing_eq s hd hsym, overall_tracing_eq s hd]

theorem zipWith_mul_replicate_one (l : List ℚ) : ∀ n, l.length ≤ n →
    List.zipWith (· * ·) l (List.replicate n (1 : ℚ)) = l := by
  induction l with
  | nil => intro n _; simp
  | cons v t ih =>
    intro n hn
    cases n with
    | zero => simp at hn
    | succ m =>
      simp only [List.replicate_succ, List.zipWith_cons_cons, mul_one, List.cons.injEq]
      exact ⟨by trivial, ih m (by simpa using hn)⟩

/-- C1: for positive `r0`, a raw infection-rate vector with nonzero sum and a
nonempty symptom vector, `set_rates(r0, raw, symptoms)` stores
`r0 * raw[i] / sum(raw)` elementwise as the infection profile, whose sum is
exactly `r0`; `days` equals the length of the stored profile; and the symptom
profile is stored exactly as given, with no normalization. -/
theorem claim_C1_set_rates (s : Infection) (r0 : ℚ) (raw symptoms : List ℚ)
    (hr0 : 0 < r0) (hsum : raw.sum ≠ 0) (hsym : symptoms ≠ []) :
    (set_rates s (some r0) (some raw) (some symptoms)).infection_rates =
        raw.map (fun v => r0 * v / raw.sum) ∧
    (set_rates s (some r0) (some raw) (some symptoms)).infection_rates.sum = r0 ∧
    (set_rates s (some r0) (some raw) (some symptoms)).days =
        (set_rates s (some r0) (some raw) (some symptoms)).infection_rates.length ∧
    (set_rates s (some r0) (some raw) (some symptoms)).symptoms = symptoms := by
  have hraw : raw ≠ [] := by
    intro h
    rw [h] at hsum
    simp at hsum
  have hr0' : r0 ≠ 0 := ne_of_gt hr0
  simp only [set_rates, if_neg hr0', if_neg hraw, if_neg hsym]
  refine ⟨by trivial, ?_, by trivial, by trivial⟩
  rw [map_scale_sum, mul_div_assoc, div_self hsum, mul_one]

theorem claim_C1_witness :
    (0 : ℚ) < 2 ∧ ([(1 : ℚ), 3].sum ≠ 0) ∧ ([(5 : ℚ)] ≠ []) ∧
    ((set_rates defaultInfection (some 2) (some [1, 3]) (some [5])).infection_rates =
        [1, 3].map (fun v => 2 * v / [(1 : ℚ), 3].sum) ∧
      (set_rates defaultInfection (some 2) (some [1, 3]) (some [5])).infection_rates.sum = 2 ∧
      (set_rates defaultInfection (some 2) (some [1, 3]) (some [5])).days =
        (set_rates defaultInfection (some 2) (some [1, 3]) (some [5])).infection_rates.length ∧
      (set_rates defaultInfection (some 2) (some [1, 3]) (some [5])).symptoms = [5]) :=
  ⟨by with_unfolding_all decide, by with_unfolding_all decide, by with_unfolding_all decide,
    claim_C1_set_rates defaultInfection 2 [1, 3] [5] (by with_unfolding_all decide)
      (by with_unfolding_all decide) (by with_unfolding_all decide)⟩

/-- C2: for every Parameter Set whose `days` field equals the length of its
infection profile and whose symptom profile is nonempty, `suppress` returns
exactly the spec's description: the elementwise product, over `days` entries,
of the infection profile, the testing-suppression sequence (ones for the
first `testingDelay` days, then the cumulative-share multipliers, then the
last computed multiplier repeated) and the tracing-suppression sequence (ones
for the first `testingDelay + tracingDelay` days, then the tracing scalar
repeated), with `effectiveSymptomShare` as specified. -/
theorem claim_C2_suppress_refines_spec (s : Infection)
    (hd : s.days = s.infection_rates.length) (hsym : s.symptoms ≠ []) :
    suppress s = suppressSpec s :=
  suppress_eq_spec s hd hsym

theorem claim_C2_witness :
    defaultInfection.days = defaultInfection.infection_rates.length ∧
    defaultInfection.symptoms ≠ [] ∧
    suppress defaultInfection = suppressSpec defaultInfection :=
  ⟨by with_unfolding_all decide, by with_unfolding_all decide,
    claim_C2_suppress_refines_spec defaultInfection (by with_unfolding_all decide)
      (by with_unfolding_all decide)⟩

/-- C3, counterexample: the default Parameter Set has `tracingRate = 0`, yet
(because `testingRate = 50` keeps the testing suppression active) `suppress`
does not return the infection profile and `R` does not equal `r0`.  So
`tracingRate = 0` alone does not make all multipliers 1. -/
theorem claim_C3_counterexample :
    defaultInfection.tracing_rate = 0 ∧
    suppress defaultInfection ≠ defaultInfection.infection_rates ∧
    get_r defaultInfection ≠ defaultInfection.r0 := by
  with_unfolding_all decide

/-- C3, amended: with `testingRate = 0` (this is the half of the claim the
code satisfies; `tracingRate = 0` alone does not suffice), every entry of
both suppression-multiplier sequences is 1, `suppress` returns exactly the
stored infection profile, and `R = sum(suppress())` equals `r0` whenever the
profile is normalized (`sum(infectionProfile) = r0`, the `set_rates`
invariant). -/
theorem claim_C3_amended (s : Infection) (h0 : s.testing_rate = 0)
    (hd : s.days = s.infection_rates.length) (hsym : s.symptoms ≠ [])
    (hn : s.infection_rates.sum = s.r0) :
    (∀ v ∈ overall_testing_suppression s, v = 1) ∧
    (∀ v ∈ overall_tracing_suppression s, v = 1) ∧
    suppress s = s.infection_rates ∧
    get_r s = s.r0 := by
  have htm : ∀ k, testingMultiplier s k = 1 := by
    intro k
    simp [testingMultiplier, h0]
  have htest : testingSeqSpec s = List.replicate s.days (1 : ℚ) := by
    have hlen : (testingSeqSpec s).length = s.days := by simp [testingSeqSpec]
    rw [← hlen]
    apply List.eq_replicate_of_mem
    intro v hv
    rw [testingSeqSpec, List.mem_ofFn] at hv
    obtain ⟨d, hd'⟩ := hv
    rw [← hd']
    dsimp only
    split
    · rfl
    · split
      · exact htm _
      · exact htm _
  have htrace : tracingSeqSpec s = List.replicate s.days (1 : ℚ) := by
    have hlen : (tracingSeqSpec s).length = s.days := by simp [tracingSeqSpec]
    rw [← hlen]
    apply List.eq_replicate_of_mem
    intro v hv
    rw [tracingSeqSpec, List.mem_ofFn] at hv
    obtain ⟨d, hd'⟩ := hv
    rw [← hd']
    dsimp only
    split
    · rfl
    · simp [tracingScalarSpec, h0]
  have hsupp : suppress s = s.infection_rates := by
    rw [suppress_eq_spec s hd hsym, suppressSpec, htest, htrace,
      zipWith_mul_replicate_one _ _ (le_of_eq hd.symm)]
    exact zipWith_mul_replicate_one _ _ (le_of_eq hd.symm)
  refine ⟨?_, ?_, hsupp, ?_⟩
  · intro v hv
    rw [overall_testing_eq s hd hsym, htest] at hv
    exact List.eq_of_mem_replicate hv
  · intro v hv
    rw [overall_tracing_eq s hd, htrace] at hv
    exact List.eq_of_mem_replicate hv
  · rw [get_r, hsupp, hn]

theorem claim_C3_witness :
    (setAttr defaultInfection .testing_rate 0).testing_rate = 0 ∧
    ((∀ v ∈ overall_testing_suppression (setAttr defaultInfection .testing_rate 0), v = 1) ∧
      (∀ v ∈ overall_tracing_suppression (setAttr defaultInfection .testing_rate 0), v = 1) ∧
      suppress (setAttr defaultInfection .testing_rate 0) =
        (setAttr defaultInfection .testing_rate 0).infection_rates ∧
      get_r (setAttr defaultInfection .testing_rate 0) =
        (setAttr defaultInfection .testing_rate 0).r0) :=
  ⟨by with_unfolding_all decide,
    claim_C3_amended (setAttr defaultInfection .testing_rate 0)
      (by with_unfolding_all decide) (by with_unfolding_all decide)
      (by with_unfolding_all decide) (by with_unfolding_all decide)⟩

/-- C4: code behaviour at the failing input `setRates(r0=2.0,
infectionRates=[0,0,0])`.  The code raises no domain error: numpy evaluates
`2.0 * [0,0,0] / 0.0` to an all-NaN profile (rendered by the `ℚ` junk-value
convention as `[0,0,0]`) and stores it, so the normalization invariant
`sum(infectionProfile) = r0` is silently violated instead of rejected. -/
theorem claim_C4_no_domain_error :
    (set_rates defaultInfection (some 2) (some [0, 0, 0]) none).infection_rates =
      [0, 0, 0] ∧
    (set_rates defaultInfection (some 2) (some [0, 0, 0]) none).infection_rates.sum ≠
      (set_rates defaultInfection (some 2) (some [0, 0, 0]) none).r0 := by
  with_unfolding_all decide

/-- C10: a freshly constructed `Infection()` carries every registry default
(`testingRate 50`, `testingDelay 3`, `isolationEffectivity 90`,
`tracingRate 0`, `tracingDelay 1`, `asymptomaticInf 20`), and `r0 = 2.0` —
the registry default overriding the class-level `r0 = 3.0` — with the default
profile `[0,1,3,6,8,6,3,1]` normalized to sum `2.0` and `days = 8`. -/
theorem claim_C10_defaults :
    defaultInfection.testing_rate = 50 ∧
    defaultInfection.testing_delay = 3 ∧
    defaultInfection.isolation_effectivity = 90 ∧
    defaultInfection.tracing_rate = 0 ∧
    defaultInfection.tracing_delay = 1 ∧
    defaultInfection.asymptomatic_inf = 20 ∧
    defaultInfection.r0 = 2 ∧
    classInfection.r0 = 3 ∧
    defaultInfection.infection_rates =
      [0, 1, 3, 6, 8, 6, 3, 1].map (fun v => (2 : ℚ) * v / 28) ∧
    defaultInfection.infection_rates.sum = 2 ∧
    defaultInfection.days = 8 := by
  with_unfolding_all decide

theorem simAux_spec (s : Infection) : ∀ (n : ℕ) (x : List ℚ),
    (simAux s n x).1.length = n ∧
    (simAux s n x).2 = List.replicate n (suppress s).sum := by
  intro n
  induction n with
  | zero => intro x; exact ⟨rfl, rfl⟩
  | succ m ih =>
    intro x
    obtain ⟨ih1, ih2⟩ := ih (transmit s x).1
    refine ⟨?_, ?_⟩
    · simp only [simAux, List.length_cons, ih1]
    · simp only [simAux, ih2, List.replicate_succ]
      rfl

/-- C6: for every Parameter Set and every initial case vector no longer than
`days`, `simulate` returns an R series of length `n + 1` whose head is `r0`
and whose entry for every one of the `n` steps is `sum(suppress())`
recomputed on the unchanged Parameter Set, together with a history holding
one window per step including the initial (zero-padded) state. -/
theorem claim_C6_simulate (s : Infection) (initial_cases : List ℚ) (n : ℕ)
    (hlen : initial_cases.length ≤ s.days) :
    (simulate s initial_cases n).2 = s.r0 :: List.replicate n (suppress s).sum ∧
    (simulate s initial_cases n).2.length = n + 1 ∧
    (simulate s initial_cases n).1.length = n + 1 ∧
    (simulate s initial_cases n).1.head? =
      some (initial_cases ++ List.replicate (s.days - initial_cases.length) (0 : ℚ)) := by
  obtain ⟨h1, h2⟩ := simAux_spec s n
    (initial_cases ++ List.replicate (s.days - initial_cases.length) (0 : ℚ))
  refine ⟨?_, ?_, ?_, ?_⟩
  · simp only [simulate, h2]
  · simp only [simulate, List.length_cons, h2, List.length_replicate]
  · simp only [simulate, List.length_cons, h1]
  · simp only [simulate, List.head?_cons]

theorem claim_C6_witness :
    ([(1 : ℚ)].length ≤ defaultInfection.days) ∧
    ((simulate defaultInfection [1] 3).2 =
        defaultInfection.r0 :: List.replicate 3 (suppress defaultInfection).sum ∧
      (simulate defaultInfection [1] 3).2.length = 3 + 1 ∧
      (simulate defaultInfection [1] 3).1.length = 3 + 1 ∧
      (simulate defaultInfection [1] 3).1.head? =
        some ([1] ++ List.replicate (defaultInfection.days - [(1 : ℚ)].length) (0 : ℚ))) :=
  ⟨by with_unfolding_all decide,
    claim_C6_simulate defaultInfection [1] 3 (by with_unfolding_all decide)⟩

theorem frangeAux_adequate (y jump : ℚ) (hj : 0 < jump) :
    ∀ (fuel : ℕ) (x : ℚ),
      (⌊(y + 1 / 100000 * jump - x) / jump⌋ + 1).toNat ≤ fuel →
      frangeAux y jump fuel x =
        (List.range (⌊(y + 1 / 100000 * jump - x) / jump⌋ + 1).toNat).map
          (fun i : ℕ => x + (i : ℚ) * jump) := by
  intro fuel
  induction fuel with
  | zero =>
    intro x hx
    have : (⌊(y + 1 / 100000 * jump - x) / jump⌋ + 1).toNat = 0 := by omega
    rw [this]
    rfl
  | succ m ih =>
    intro x hx
    by_cases hguard : x ≤ y + 1 / 100000 * jump
    · have ht0 : (0 : ℚ) ≤ (y + 1 / 100000 * jump - x) / jump :=
        div_nonneg (by linarith) (le_of_lt hj)
      have hfl0 : 0 ≤ ⌊(y + 1 / 100000 * jump - x) / jump⌋ := Int.floor_nonneg.mpr ht0
      have hshift : (y + 1 / 100000 * jump - (x + jump)) / jump =
          (y + 1 / 100000 * jump - x) / jump - 1 := by
        field_simp
        ring
      have hfl : ⌊(y + 1 / 100000 * jump - (x + jump)) / jump⌋ =
          ⌊(y + 1 / 100000 * jump - x) / jump⌋ - 1 := by
        rw [hshift]
        exact_mod_cast Int.floor_sub_int ((y + 1 / 100000 * jump - x) / jump) 1
      have hrec := ih (x + jump) (by rw [hfl]; omega)
      rw [frangeAux, if_pos hguard, hrec, hfl]
      have hn : (⌊(y + 1 / 100000 * jump - x) / jump⌋ + 1).toNat =
          (⌊(y + 1 / 100000 * jump - x) / jump⌋ - 1 + 1).toNat + 1 := by omega
      rw [hn, List.range_succ_eq_map, List.map_cons, List.map_map]
      refine List.cons_eq_cons.mpr ⟨by push_cast; ring, ?_⟩
      apply List.map_congr_left
      intro i _
      simp only [Function.comp_apply]
      push_cast
      ring
    · have ht : (y + 1 / 100000 * jump - x) / jump < 0 :=
        div_neg_of_neg_of_pos (by linarith) hj
      have hneg : ⌊(y + 1 / 100000 * jump - x) / jump⌋ < 0 := by
        by_contra hcon
        push_neg at hcon
        exact absurd (Int.floor_nonneg.mp hcon) (not_le.mpr ht)
      have : (⌊(y + 1 / 100000 * jump - x) / jump⌋ + 1).toNat = 0 := by omega
      rw [frangeAux, if_neg hguard, this]
      rfl

theorem frange_eq_progression (x y jump : ℚ) (hj : 0 < jump) :
    frange x y jump =
      (List.range (⌊(y + 1 / 100000 * jump - x) / jump⌋ + 1).toNat).map
        (fun i : ℕ => x + (i : ℚ) * jump) := by
  apply frangeAux_adequate y jump hj
  have := Int.floor_le_ceil ((y + 1 / 100000 * jump - x) / jump)
  omega

theorem iterate_foldl_fst_length (id : VarId) : ∀ (l : List ℚ) (acc : List Record)
    (s : Infection),
    ((l.foldl (fun acc x =>
        let st := iterStep acc.2 id x
        (acc.1 ++ [snapshot st], st)) (acc, s)).1).length = acc.length + l.length := by
  intro l
  induction l with
  | nil => intro acc s; simp
  | cons v t ih =>
    intro acc s
    simp only [List.foldl_cons]
    rw [ih]
    simp only [List.length_append, List.length_cons, List.length_nil]
    omega

theorem iterate_fst_length (s : Infection) (id : VarId) :
    (iterate s id).1.length = (frange (varMin id) (varMax id) (varStep id)).length := by
  rw [iterate, iterate_foldl_fst_length]
  simp

/-- C5: the sweep over `r0` with declared range `(1.0, 5.0, 0.1)` produces
exactly 41 records, ordered by increasing swept value, each record's `r0`
equal to the swept value `1 + i/10` (exact over `ℚ`, hence within `1e-9`);
and in general a sweep produces one record per `frange` value, where for any
positive step `frange` enumerates precisely the arithmetic progression
`min, min+step, ...` for as long as the value is at most
`max + step * 1e-5` (the tolerance that keeps the endpoint included). -/
theorem claim_C5_sweep_completeness (x y jump : ℚ) (hj : 0 < jump) :
    ((iterate defaultInfection .r0).1.length = 41 ∧
      (iterate defaultInfection .r0).1.map Record.r0 =
        (List.range 41).map (fun i : ℕ => 1 + (i : ℚ) * (1 / 10)) ∧
      ((iterate defaultInfection .r0).1.map Record.r0).Pairwise (· < ·)) ∧
    (∀ (s : Infection) (id : VarId),
      (iterate s id).1.length = (frange (varMin id) (varMax id) (varStep id)).length) ∧
    ∃ n : ℕ, frange x y jump = (List.range n).map (fun i : ℕ => x + (i : ℚ) * jump) ∧
      (∀ i : ℕ, i < n → x + (i : ℚ) * jump ≤ y + 1 / 100000 * jump) ∧
      ¬x + (n : ℚ) * jump ≤ y + 1 / 100000 * jump := by
  refine ⟨⟨by with_unfolding_all decide, by with_unfolding_all decide,
      by with_unfolding_all decide⟩, iterate_fst_length, ?_⟩
  have hj' : jump ≠ 0 := ne_of_gt hj
  have hmul : (y + 1 / 100000 * jump - x) / jump * jump = y + 1 / 100000 * jump - x :=
    div_mul_cancel₀ _ hj'
  refine ⟨(⌊(y + 1 / 100000 * jump - x) / jump⌋ + 1).toNat,
    frange_eq_progression x y jump hj, ?_, ?_⟩
  · intro i hi
    have h1 : (i : ℤ) ≤ ⌊(y + 1 / 100000 * jump - x) / jump⌋ := by omega
    have h2 : (i : ℚ) ≤ (y + 1 / 100000 * jump - x) / jump := by
      exact_mod_cast Int.le_floor.mp h1
    have h3 := mul_le_mul_of_nonneg_right h2 (le_of_lt hj)
    rw [hmul] at h3
    linarith
  · intro hcon
    by_cases hn : 0 ≤ ⌊(y + 1 / 100000 * jump - x) / jump⌋
    · have hcast : ((⌊(y + 1 / 100000 * jump - x) / jump⌋ + 1).toNat : ℚ) =
          (⌊(y + 1 / 100000 * jump - x) / jump⌋ : ℚ) + 1 := by
        have : ((⌊(y + 1 / 100000 * jump - x) / jump⌋ + 1).toNat : ℤ) =
            ⌊(y + 1 / 100000 * jump - x) / jump⌋ + 1 := by omega
        exact_mod_cast congrArg (fun z : ℤ => (z : ℚ)) this
      have hlt : (y + 1 / 100000 * jump - x) / jump <
          (⌊(y + 1 / 100000 * jump - x) / jump⌋ : ℚ) + 1 :=
        Int.lt_floor_add_one _
      have h4 := mul_lt_mul_of_pos_right hlt hj
      rw [hmul] at h4
      rw [hcast] at hcon
      linarith
    · push_neg at hn
      have ht : (y + 1 / 100000 * jump - x) / jump < 0 := by
        by_contra hc
        push_neg at hc
        exact absurd (Int.floor_nonneg.mpr hc) (not_le.mpr hn)
      have : (⌊(y + 1 / 100000 * jump - x) / jump⌋ + 1).toNat = 0 := by omega
      rw [this] at hcon
      have h5 := mul_neg_of_neg_of_pos ht hj
      rw [hmul] at h5
      push_cast at hcon
      linarith

theorem claim_C5_witness :
    (0 : ℚ) < 1 / 10 ∧
    (((iterate defaultInfection .r0).1.length = 41 ∧
        (iterate defaultInfection .r0).1.map Record.r0 =
          (List.range 41).map (fun i : ℕ => 1 + (i : ℚ) * (1 / 10)) ∧
        ((iterate defaultInfection .r0).1.map Record.r0).Pairwise (· < ·)) ∧
      (∀ (s : Infection) (id : VarId),
        (iterate s id).1.length = (frange (varMin id) (varMax id) (varStep id)).length) ∧
      ∃ n : ℕ, frange 1 5 (1 / 10) =
          (List.range n).map (fun i : ℕ => 1 + (i : ℚ) * (1 / 10)) ∧
        (∀ i : ℕ, i < n → 1 + (i : ℚ) * (1 / 10) ≤ 5 + 1 / 100000 * (1 / 10)) ∧
        ¬(1 : ℚ) + (n : ℚ) * (1 / 10) ≤ 5 + 1 / 100000 * (1 / 10)) :=
  ⟨by with_unfolding_all decide,
    claim_C5_sweep_completeness 1 5 (1 / 10) (by with_unfolding_all decide)⟩

theorem iterate_foldl_snd (id : VarId) : ∀ (l : List ℚ) (acc : List Record)
    (s : Infection),
    (l.foldl (fun acc x =>
        let st := iterStep acc.2 id x
        (acc.1 ++ [snapshot st], st)) (acc, s)).2 =
      l.foldl (fun st x => iterStep st id x) s := by
  intro l
  induction l with
  | nil => intro acc s; rfl
  | cons v t ih => intro acc s; exact ih _ _

theorem iterate_snd_eq_foldl (s : Infection) (id : VarId) :
    (iterate s id).2 =
      (frange (varMin id) (varMax id) (varStep id)).foldl
        (fun st x => iterStep st id x) s := by
  rw [iterate, iterate_foldl_snd]

theorem setAttr_setAttr (s : Infection) (id : VarId) (x y : ℚ) :
    setAttr (setAttr s id x) id y = setAttr s id y := by
  cases id <;> rfl

theorem foldl_setAttr_getLastD (id : VarId) : ∀ (l : List ℚ) (s : Infection) (v : ℚ),
    l.foldl (fun st x => setAttr st id x) (setAttr s id v) =
      setAttr s id (l.getLastD v) := by
  intro l
  induction l with
  | nil => intro s v; rfl
  | cons w t ih =>
    intro s v
    simp only [List.foldl_cons, List.getLastD_cons]
    rw [setAttr_setAttr]
    exact ih s w

theorem set_rates_r0_some (s : Infection) (v : ℚ) (hv : v ≠ 0) :
    set_rates s (some v) none none =
      { s with
        r0 := v
        infection_rates := s.infection_rates.map (fun q => v * q / s.infection_rates.sum)
        days := (s.infection_rates.map
          (fun q => v * q / s.infection_rates.sum)).length } := by
  simp [set_rates, hv]

theorem set_rates_r0_sum (s : Infection) (v : ℚ) (hv : v ≠ 0)
    (hs : s.infection_rates.sum ≠ 0) :
    (set_rates s (some v) none none).infection_rates.sum = v := by
  rw [set_rates_r0_some s v hv]
  simp only [map_scale_sum]
  rw [mul_div_assoc, div_self hs, mul_one]

theorem set_rates_set_rates (s : Infection) (v w : ℚ) (hv : v ≠ 0) (hw : w ≠ 0)
    (hs : s.infection_rates.sum ≠ 0) :
    set_rates (set_rates s (some v) none none) (some w) none none =
      set_rates s (some w) none none := by
  have hsum : (s.infection_rates.map
      (fun q => v * q / s.infection_rates.sum)).sum = v := by
    rw [map_scale_sum, mul_div_assoc, div_self hs, mul_one]
  have hmap : (s.infection_rates.map (fun q => v * q / s.infection_rates.sum)).map
      (fun q => w * q / v) =
      s.infection_rates.map (fun q => w * q / s.infection_rates.sum) := by
    rw [List.map_map]
    apply List.map_congr_left
    intro q _
    simp only [Function.comp_apply]
    field_simp
    ring
  rw [set_rates_r0_some s v hv, set_rates_r0_some _ w hw, set_rates_r0_some s w hw]
  simp only [hsum, hmap]

theorem foldl_set_r0_getLastD : ∀ (l : List ℚ) (s : Infection) (v : ℚ),
    s.infection_rates.sum ≠ 0 → v ≠ 0 → (∀ u ∈ l, u ≠ 0) →
    l.foldl (fun st x => set_rates st (some x) none none)
        (set_rates s (some v) none none) =
      set_rates s (some (l.getLastD v)) none none := by
  intro l
  induction l with
  | nil => intro s v _ _ _; rfl
  | cons w t ih =>
    intro s v hs hv hl
    have hw : w ≠ 0 := hl w (by simp)
    simp only [List.foldl_cons, List.getLastD_cons]
    rw [set_rates_set_rates s v w hv hw hs]
    exact ih s w hs hw (fun u hu => hl u (by simp [hu]))

/-- C9: `iterate` mutates the Parameter Set in place and does not restore it.
For every starting set whose profile has nonzero sum: sweeping any variable
other than `r0` leaves the state exactly `setattr`-updated with the last
value generated by `frange` over the declared range (so the swept field holds
that last value and every other field is untouched); sweeping `r0` leaves the
state exactly as a final `set_rates(last)` would (so `r0` holds the last
value, the profile is renormalized to sum to it, and all other fields,
`symptoms` included, are unchanged). -/
theorem claim_C9_iterate_mutates (s : Infection) (hs : s.infection_rates.sum ≠ 0) :
    (∀ id : VarId, id ≠ .r0 → (iterate s id).2 =
      setAttr s id ((frange (varMin id) (varMax id) (varStep id)).getLastD 0)) ∧
    (iterate s .r0).2 =
      set_rates s (some ((frange (varMin .r0) (varMax .r0) (varStep .r0)).getLastD 0))
        none none ∧
    (iterate s .r0).2.r0 = (frange (varMin .r0) (varMax .r0) (varStep .r0)).getLastD 0 ∧
    (iterate s .r0).2.infection_rates.sum =
      (frange (varMin .r0) (varMax .r0) (varStep .r0)).getLastD 0 := by
  have hlast : (frange (varMin .r0) (varMax .r0) (varStep .r0)).getLastD 0 = 5 := by
    with_unfolding_all decide
  have hfr : frange (varMin .r0) (varMax .r0) (varStep .r0) =
      1 :: (frange (varMin .r0) (varMax .r0) (varStep .r0)).tail := by
    with_unfolding_all decide
  have hnz : ∀ u ∈ (frange (varMin .r0) (varMax .r0) (varStep .r0)).tail, u ≠ 0 := by
    with_unfolding_all decide
  have hr0main : (iterate s .r0).2 =
      set_rates s (some ((frange (varMin .r0) (varMax .r0) (varStep .r0)).getLastD 0))
        none none := by
    rw [iterate_snd_eq_foldl]
    rw [hfr]
    simp only [List.foldl_cons, List.getLastD_cons]
    have hstep : iterStep s .r0 1 = set_rates s (some 1) none none := rfl
    rw [hstep]
    calc (frange (varMin .r0) (varMax .r0) (varStep .r0)).tail.foldl
          (fun st x => iterStep st .r0 x) (set_rates s (some 1) none none)
        = (frange (varMin .r0) (varMax .r0) (varStep .r0)).tail.foldl
          (fun st x => set_rates st (some x) none none) (set_rates s (some 1) none none) := rfl
      _ = set_rates s
          (some ((frange (varMin .r0) (varMax .r0) (varStep .r0)).tail.getLastD 1))
          none none :=
        foldl_set_r0_getLastD _ s 1 hs one_ne_zero hnz
  refine ⟨?_, hr0main, ?_, ?_⟩
  · intro id hid
    rw [iterate_snd_eq_foldl]
    have hne : frange (varMin id) (varMax id) (varStep id) ≠ [] := by
      cases id
      · exact absurd rfl hid
      all_goals with_unfolding_all decide
    obtain ⟨v, t, hvt⟩ := List.exists_cons_of_ne_nil hne
    rw [hvt]
    have hstep : ∀ (st : Infection) (x : ℚ), iterStep st id x = setAttr st id x := by
      intro st x
      cases id
      · exact absurd rfl hid
      all_goals rfl
    simp only [List.foldl_cons, List.getLastD_cons, hstep]
    exact foldl_setAttr_getLastD id t s v
  · rw [hr0main, hlast, set_rates_r0_some s 5 (by norm_num)]
  · rw [hr0main, hlast]
    exact set_rates_r0_sum s 5 (by norm_num) hs

theorem claim_C9_witness :
    defaultInfection.infection_rates.sum ≠ 0 ∧
    ((∀ id : VarId, id ≠ .r0 → (iterate defaultInfection id).2 =
        setAttr defaultInfection id
          ((frange (varMin id) (varMax id) (varStep id)).getLastD 0)) ∧
      (iterate defaultInfection .r0).2 =
        set_rates defaultInfection
          (some ((frange (varMin .r0) (varMax .r0) (varStep .r0)).getLastD 0)) none none ∧
      (iterate defaultInfection .r0).2.r0 =
        (frange (varMin .r0) (varMax .r0) (varStep .r0)).getLastD 0 ∧
      (iterate defaultInfection .r0).2.infection_rates.sum =
        (frange (varMin .r0) (varMax .r0) (varStep .r0)).getLastD 0) :=
  ⟨by with_unfolding_all decide,
    claim_C9_iterate_mutates defaultInfection (by with_unfolding_all decide)⟩

theorem companion_one_map (q : ℚ) :
    (companion 1 [q]).map (fun r => (r : ℂ)) =
      algebraMap ℂ (Matrix (Fin 1) (Fin 1) ℂ) (q : ℂ) := by
  ext i j
  fin_cases i
  fin_cases j
  simp [companion, Matrix.map_apply, Matrix.algebraMap_matrix_apply]

/-- C8: with `days = 1` the matrix built by `compute_growth` from the
effective vector `[q]` is the 1×1 matrix whose sole entry is `q`; its complex
spectrum is exactly `{q}`, so the set of eigenvalue magnitudes is `{|q|}` and
the returned dominant-eigenvalue magnitude (`np.max(np.abs(...))`) is `|q|` —
no special-casing is needed. -/
theorem claim_C8_days_one (q : ℚ) :
    (∀ i j : Fin 1, companion 1 [q] i j = q) ∧
    eigenvalueMagnitudes 1 (companion 1 [q]) = {|(q : ℝ)|} ∧
    sSup (eigenvalueMagnitudes 1 (companion 1 [q])) = |(q : ℝ)| := by
  have hspec : spectrum ℂ ((companion 1 [q]).map (fun r => (r : ℂ))) = {(q : ℂ)} := by
    rw [companion_one_map]
    exact spectrum.scalar_eq (q : ℂ)
  have habs : Complex.abs (q : ℂ) = |(q : ℝ)| := by
    rw [show ((q : ℚ) : ℂ) = (((q : ℝ) : ℝ) : ℂ) by push_cast; rfl]
    exact Complex.abs_ofReal _
  have hset : eigenvalueMagnitudes 1 (companion 1 [q]) = {|(q : ℝ)|} := by
    ext x
    simp only [eigenvalueMagnitudes, hspec, Set.mem_singleton_iff, Set.mem_setOf_eq]
    constructor
    · rintro ⟨μ, hμ, rfl⟩
      rw [hμ, habs]
    · rintro rfl
      exact ⟨(q : ℂ), rfl, habs.symm⟩
  refine ⟨?_, hset, ?_⟩
  · intro i j
    fin_cases i
    fin_cases j
    simp [companion]
  · rw [hset]
    exact csSup_singleton _

theorem getD_nonneg (l : List ℚ) (h : ∀ v ∈ l, 0 ≤ v) (d : ℕ) : 0 ≤ l.getD d 0 := by
  by_cases hd : d < l.length
  · rw [List.getD_eq_getElem?_getD, List.getElem?_eq_getElem hd]
    exact h _ (List.getElem_mem hd)
  · rw [List.getD_eq_getElem?_getD, List.getElem?_eq_none (le_of_not_lt hd)]
    exact le_refl 0

theorem sum_range_getD (l : List ℚ) : ∀ m : ℕ,
    ((List.range m).map (fun i => l.getD i 0)).sum = (l.take m).sum := by
  intro m
  induction m with
  | zero => simp
  | succ k ih =>
    rw [List.range_succ, List.map_append, List.sum_append, ih, List.take_succ,
      List.sum_append]
    simp only [List.map_cons, List.map_nil, List.sum_cons, List.sum_nil, add_zero]
    congr 1
    by_cases hk : k < l.length
    · rw [List.getD_eq_getElem?_getD, List.getElem?_eq_getElem hk]
      simp
    · rw [List.getD_eq_getElem?_getD, List.getElem?_eq_none (le_of_not_lt hk)]
      simp

theorem take_sum_le (l : List ℚ) (h : ∀ v ∈ l, 0 ≤ v) (m : ℕ) :
    (l.take m).sum ≤ l.sum := by
  conv_rhs => rw [← List.take_append_drop m l]
  rw [List.sum_append]
  have hdrop : 0 ≤ (l.drop m).sum :=
    List.sum_nonneg (fun v hv => h v (List.mem_of_mem_drop hv))
  linarith

theorem sum_map_div {α : Type} (l : List α) (g : α → ℚ) (c : ℚ) :
    (l.map (fun x => g x / c)).sum = (l.map g).sum / c := by
  induction l with
  | nil => simp
  | cons v t ih => simp [ih, add_div]

theorem share_denom_ge (s : Infection) (hss : s.symptoms.sum ≤ 100)
    (ha : 0 ≤ s.asymptomatic_inf) :
    s.symptoms.sum ≤
      (100 - s.symptoms.sum) * (s.asymptomatic_inf / 100) + s.symptoms.sum := by
  have h : 0 ≤ (100 - s.symptoms.sum) * (s.asymptomatic_inf / 100) :=
    mul_nonneg (by linarith) (div_nonneg ha (by norm_num))
  linarith

theorem cumulativeShare_nonneg (s : Infection) (hv : ∀ v ∈ s.symptoms, 0 ≤ v)
    (hss : s.symptoms.sum ≤ 100) (ha : 0 ≤ s.asymptomatic_inf) (d : ℕ) :
    0 ≤ cumulativeShare s d := by
  have hS0 : 0 ≤ s.symptoms.sum := List.sum_nonneg hv
  have hD := share_denom_ge s hss ha
  apply List.sum_nonneg
  intro x hx
  obtain ⟨i, _, rfl⟩ := List.mem_map.mp hx
  exact div_nonneg (getD_nonneg _ hv i) (by linarith)

theorem cumulativeShare_le_one (s : Infection) (hv : ∀ v ∈ s.symptoms, 0 ≤ v)
    (hss : s.symptoms.sum ≤ 100) (ha : 0 ≤ s.asymptomatic_inf) (d : ℕ) :
    cumulativeShare s d ≤ 1 := by
  have hS0 : 0 ≤ s.symptoms.sum := List.sum_nonneg hv
  have hD := share_denom_ge s hss ha
  rw [cumulativeShare]
  have hrw : (List.range (d + 1)).map (effectiveSymptomShare s) =
      (List.range (d + 1)).map (fun i => s.symptoms.getD i 0 /
        ((100 - s.symptoms.sum) * (s.asymptomatic_inf / 100) + s.symptoms.sum)) := rfl
  rw [hrw, sum_map_div, sum_range_getD]
  apply div_le_one_of_le₀
  · exact le_trans (take_sum_le _ hv _) hD
  · linarith

theorem totalShare_nonneg (s : Infection) (hv : ∀ v ∈ s.symptoms, 0 ≤ v)
    (hss : s.symptoms.sum ≤ 100) (ha : 0 ≤ s.asymptomatic_inf) :
    0 ≤ totalShare s := by
  have hS0 : 0 ≤ s.symptoms.sum := List.sum_nonneg hv
  have hD := share_denom_ge s hss ha
  apply List.sum_nonneg
  intro x hx
  obtain ⟨i, _, rfl⟩ := List.mem_map.mp hx
  exact div_nonneg (getD_nonneg _ hv i) (by linarith)

theorem totalShare_le_one (s : Infection) (hv : ∀ v ∈ s.symptoms, 0 ≤ v)
    (hss : s.symptoms.sum ≤ 100) (ha : 0 ≤ s.asymptomatic_inf) :
    totalShare s ≤ 1 := by
  have hS0 : 0 ≤ s.symptoms.sum := List.sum_nonneg hv
  have hD := share_denom_ge s hss ha
  rw [totalShare]
  have hrw : (List.range s.symptoms.length).map (effectiveSymptomShare s) =
      (List.range s.symptoms.length).map (fun i => s.symptoms.getD i 0 /
        ((100 - s.symptoms.sum) * (s.asymptomatic_inf / 100) + s.symptoms.sum)) := rfl
  rw [hrw, sum_map_div, sum_range_getD]
  apply div_le_one_of_le₀
  · exact le_trans (take_sum_le _ hv _) hD
  · linarith

theorem zipWith_mul_ofFn_left (l : List ℚ) {n : ℕ} (f : Fin n → ℚ) (hl : l.length = n) :
    List.zipWith (· * ·) l (List.ofFn f) =
      List.ofFn (fun i : Fin n => l.getD (i : ℕ) 0 * f i) := by
  apply List.ext_getElem
  · simp [hl]
  · intro i h1 h2
    have hi : i < n := by simpa using h2
    have hiL : i < l.length := by omega
    rw [List.getElem_zipWith, List.getElem_ofFn, List.getElem_ofFn]
    congr 1
    rw [List.getD_eq_getElem?_getD, List.getElem?_eq_getElem hiL]
    rfl

theorem zipWith_mul_ofFn_ofFn {n : ℕ} (f g : Fin n → ℚ) :
    List.zipWith (· * ·) (List.ofFn f) (List.ofFn g) =
      List.ofFn (fun i => f i * g i) := by
  apply List.ext_getElem
  · simp
  · intro i h1 h2
    simp [List.getElem_zipWith, List.getElem_ofFn]

theorem suppressSpec_eq_ofFn (s : Infection) (hd : s.days = s.infection_rates.length) :
    suppressSpec s = List.ofFn (fun d : Fin s.days =>
      s.infection_rates.getD (d : ℕ) 0 *
        (if (d : ℕ) < s.testing_delay then 1
         else if (d : ℕ) < s.testing_delay + s.symptoms.length then
           testingMultiplier s ((d : ℕ) - s.testing_delay)
         else testingMultiplier s (s.symptoms.length - 1)) *
        (if (d : ℕ) < s.testing_delay + s.tracing_delay then 1
         else tracingScalarSpec s)) := by
  rw [suppressSpec, testingSeqSpec, zipWith_mul_ofFn_left _ _ hd.symm, tracingSeqSpec,
    zipWith_mul_ofFn_ofFn]

theorem get_r_eq_sum (s : Infection) (hd : s.days = s.infection_rates.length)
    (hsym : s.symptoms ≠ []) :
    get_r s = ∑ d : Fin s.days,
      s.infection_rates.getD (d : ℕ) 0 *
        (if (d : ℕ) < s.testing_delay then 1
         else if (d : ℕ) < s.testing_delay + s.symptoms.length then
           testingMultiplier s ((d : ℕ) - s.testing_delay)
         else testingMultiplier s (s.symptoms.length - 1)) *
        (if (d : ℕ) < s.testing_delay + s.tracing_delay then 1
         else tracingScalarSpec s) := by
  rw [get_r, suppress_eq_spec s hd hsym, suppressSpec_eq_ofFn s hd, List.sum_ofFn]

theorem mul3_mono (p a1 a2 b1 b2 : ℚ) (hp : 0 ≤ p) (ha2 : 0 ≤ a2) (ha : a2 ≤ a1)
    (hb2 : 0 ≤ b2) (hb : b2 ≤ b1) : p * a2 * b2 ≤ p * a1 * b1 := by
  have h1 : a2 * b2 ≤ a1 * b1 := mul_le_mul ha hb hb2 (le_trans ha2 ha)
  calc p * a2 * b2 = p * (a2 * b2) := by ring
    _ ≤ p * (a1 * b1) := mul_le_mul_of_nonneg_left h1 hp
    _ = p * a1 * b1 := by ring

/-- C7: with all fields within their documented domains (rates and
percentages in `[0,100]`, nonnegative profiles, `testingRate > 0`), the `R`
produced by the Suppression Engine followed by the estimator's sum is
monotonically non-increasing in `isolationEffectivity`: for `e1 ≤ e2`, the
`R` at `e2` is at most the `R` at `e1`, every other field held fixed. -/
theorem claim_C7_isolation_monotone (s : Infection) (e1 e2 : ℚ)
    (hd : s.days = s.infection_rates.length) (hsym : s.symptoms ≠ [])
    (hprof : ∀ v ∈ s.infection_rates, 0 ≤ v)
    (hsv : ∀ v ∈ s.symptoms, 0 ≤ v) (hss : s.symptoms.sum ≤ 100)
    (ha0 : 0 ≤ s.asymptomatic_inf) (ha1 : s.asymptomatic_inf ≤ 100)
    (htr : 0 < s.testing_rate) (htr1 : s.testing_rate ≤ 100)
    (htc0 : 0 ≤ s.tracing_rate) (htc1 : s.tracing_rate ≤ 100)
    (he0 : 0 ≤ e1) (he12 : e1 ≤ e2) (he2 : e2 ≤ 100) :
    get_r { s with isolation_effectivity := e2 } ≤
      get_r { s with isolation_effectivity := e1 } := by
  have he1' : e1 ≤ 100 := le_trans he12 he2
  have he20 : 0 ≤ e2 := le_trans he0 he12
  have htrd0 : 0 ≤ s.testing_rate / 100 := div_nonneg (le_of_lt htr) (by norm_num)
  have htrd1 : s.testing_rate / 100 ≤ 1 := by
    rw [div_le_one (by norm_num : (0 : ℚ) < 100)]
    exact htr1
  have htcd0 : 0 ≤ s.tracing_rate / 100 := div_nonneg htc0 (by norm_num)
  have htcd1 : s.tracing_rate / 100 ≤ 1 := by
    rw [div_le_one (by norm_num : (0 : ℚ) < 100)]
    exact htc1
  have he2d0 : 0 ≤ e2 / 100 := div_nonneg he20 (by norm_num)
  have he2d1 : e2 / 100 ≤ 1 := by
    rw [div_le_one (by norm_num : (0 : ℚ) < 100)]
    exact he2
  have he1d0 : 0 ≤ e1 / 100 := div_nonneg he0 (by norm_num)
  have hed : e1 / 100 ≤ e2 / 100 := by linarith
  have hM : ∀ k : ℕ,
      0 ≤ 1 - s.testing_rate / 100 * (e2 / 100) * cumulativeShare s k ∧
      1 - s.testing_rate / 100 * (e2 / 100) * cumulativeShare s k ≤
        1 - s.testing_rate / 100 * (e1 / 100) * cumulativeShare s k := by
    intro k
    have hcn := cumulativeShare_nonneg s hsv hss ha0 k
    have hcone := cumulativeShare_le_one s hsv hss ha0 k
    constructor
    · have hle : s.testing_rate / 100 * (e2 / 100) * cumulativeShare s k ≤ 1 :=
        mul_le_one₀ (mul_le_one₀ htrd1 he2d0 he2d1) hcn hcone
      linarith
    · have hstep : s.testing_rate / 100 * (e1 / 100) * cumulativeShare s k ≤
          s.testing_rate / 100 * (e2 / 100) * cumulativeShare s k :=
        mul_le_mul_of_nonneg_right (mul_le_mul_of_nonneg_left hed htrd0) hcn
      linarith
  have hts0 := totalShare_nonneg s hsv hss ha0
  have hts1 := totalShare_le_one s hsv hss ha0
  have hT : 0 ≤ 1 - totalShare s * (s.testing_rate / 100) * (s.tracing_rate / 100) *
        (e2 / 100) ∧
      1 - totalShare s * (s.testing_rate / 100) * (s.tracing_rate / 100) * (e2 / 100) ≤
        1 - totalShare s * (s.testing_rate / 100) * (s.tracing_rate / 100) *
          (e1 / 100) := by
    constructor
    · have hle : totalShare s * (s.testing_rate / 100) * (s.tracing_rate / 100) *
          (e2 / 100) ≤ 1 :=
        mul_le_one₀ (mul_le_one₀ (mul_le_one₀ hts1 htrd0 htrd1) htcd0 htcd1) he2d0 he2d1
      linarith
    · have hA0 : 0 ≤ totalShare s * (s.testing_rate / 100) * (s.tracing_rate / 100) :=
        mul_nonneg (mul_nonneg hts0 htrd0) htcd0
      have hstep := mul_le_mul_of_nonneg_left hed hA0
      linarith
  have hTM : ∀ (e : ℚ) (k : ℕ),
      testingMultiplier { s with isolation_effectivity := e } k =
        1 - s.testing_rate / 100 * (e / 100) * cumulativeShare s k :=
    fun _ _ => rfl
  have hTS : ∀ e : ℚ, tracingScalarSpec { s with isolation_effectivity := e } =
      1 - totalShare s * (s.testing_rate / 100) * (s.tracing_rate / 100) * (e / 100) :=
    fun _ => rfl
  have h2 := get_r_eq_sum { s with isolation_effectivity := e2 } hd hsym
  have h1 := get_r_eq_sum { s with isolation_effectivity := e1 } hd hsym
  rw [h2, h1]
  simp only [hTM, hTS]
  apply Finset.sum_le_sum
  intro d _
  apply mul3_mono
  · exact getD_nonneg _ hprof _
  · split_ifs with hA hB
    · norm_num
    · exact (hM _).1
    · exact (hM _).1
  · split_ifs with hA hB
    · exact le_refl 1
    · exact (hM _).2
    · exact (hM _).2
  · split_ifs with hA
    · norm_num
    · exact hT.1
  · split_ifs with hA
    · exact le_refl 1
    · exact hT.2

theorem claim_C7_witness :
    defaultInfection.days = defaultInfection.infection_rates.length ∧
    defaultInfection.symptoms ≠ [] ∧
    (∀ v ∈ defaultInfection.infection_rates, 0 ≤ v) ∧
    (∀ v ∈ defaultInfection.symptoms, 0 ≤ v) ∧
    defaultInfection.symptoms.sum ≤ 100 ∧
    0 ≤ defaultInfection.asymptomatic_inf ∧
    defaultInfection.asymptomatic_inf ≤ 100 ∧
    0 < defaultInfection.testing_rate ∧
    defaultInfection.testing_rate ≤ 100 ∧
    0 ≤ defaultInfection.tracing_rate ∧
    defaultInfection.tracing_rate ≤ 100 ∧
    (0 : ℚ) ≤ 50 ∧ (50 : ℚ) ≤ 90 ∧ (90 : ℚ) ≤ 100 ∧
    get_r { defaultInfection with isolation_effectivity := 90 } ≤
      get_r { defaultInfection with isolation_effectivity := 50 } :=
  ⟨by with_unfolding_all decide, by with_unfolding_all decide,
    by with_unfolding_all decide, by with_unfolding_all decide,
    by with_unfolding_all decide, by with_unfolding_all decide,
    by with_unfolding_all decide, by with_unfolding_all decide,
    by with_unfolding_all decide, by with_unfolding_all decide,
    by with_unfolding_all decide, by with_unfolding_all decide,
    by with_unfolding_all decide, by with_unfolding_all decide,
    claim_C7_isolation_monotone defaultInfection 50 90
      (by with_unfolding_all decide) (by with_unfolding_all decide)
      (by with_unfolding_all decide) (by with_unfolding_all decide)
      (by with_unfolding_all decide) (by with_unfolding_all decide)
      (by with_unfolding_all decide) (by with_unfolding_all decide)
      (by with_unfolding_all decide) (by with_unfolding_all decide)
      (by with_unfolding_all decide) (by with_unfolding_all decide)
      (by with_unfolding_all decide) (by with_unfolding_all decide)⟩

end CovidR
